import Mathlib

/-!
Shallow embedding of `src/script.js` (promotional site for a game server)
together with theorems checking the specification's claims against it.

Conventions used throughout:
* JS numbers appearing as integers are modelled by `Int` / `Nat`; the values of
  `Math.random()` (uniform draws in `[0,1)`) are modelled by explicit rational
  parameters `r` with `0 ≤ r < 1`.
* Timer-driven code is modelled by explicit event sequences and by the arithmetic
  of the scheduled times.
* `localStorage` is modelled as an association list of string pairs plus an
  `accessible` flag (`false` models a store whose operations throw, which the
  source catches and turns into a `false`/default result).
-/

namespace KC

/-! ## Data model: the shared `serverData` record (`script.js` lines 19-25) -/

/-- The mutable `serverData` record: status string, players, max players, ping,
uptime percentage.  `status` is kept as a `String` exactly as in the source. -/
structure ServerStatus where
  status : String
  playersOnline : Int
  maxPlayers : Int
  ping : Int
  uptime : ℚ
deriving Repr, DecidableEq

/-! ## Loading screen controller (`LoadingManager`, lines 94-113) -/

/-- `this.minLoadTime = 1000` in the `LoadingManager` constructor. -/
def minLoadTime : Int := 1000

/-- `remainingTime = Math.max(0, this.minLoadTime - elapsedTime)` in `hide()`. -/
def remainingTime (elapsed : Int) : Int := max 0 (minLoadTime - elapsed)

/-- Time (measured from construction) at which the fade-out starts: `hide()` is
called at `elapsed` and schedules the fade after `remainingTime elapsed`. -/
def fadeStartTime (elapsed : Int) : Int := elapsed + remainingTime elapsed

/-- Time at which the overlay is removed from layout and the body gets the
`loaded` class: a fixed 500ms after the fade starts (inner `setTimeout`). -/
def hiddenTime (elapsed : Int) : Int := fadeStartTime elapsed + 500

/-! ## Analytics scroll-depth milestones (`AnalyticsManager.trackUserInteractions`,
lines 805-819).  The handler keeps `maxScrollDepth`; on a scroll event with
rounded depth `d` it updates the maximum and logs `maxScrollDepth` whenever the
new maximum is divisible by 25. -/

/-- One scroll event: given the current `maxScrollDepth` and the rounded scroll
depth of this event, returns the new maximum and the milestone value logged by
`console.log` (if any).  Mirrors the body of the debounced scroll handler. -/
def scrollStep (maxDepth depth : Nat) : Nat × Option Nat :=
  if maxDepth < depth then
    (depth, if depth % 25 = 0 then some depth else none)
  else
    (maxDepth, none)

/-- Process a sequence of scroll events, collecting all logged milestones. -/
def scrollRun (maxDepth : Nat) : List Nat → Nat × List Nat
  | [] => (maxDepth, [])
  | d :: ds =>
    let s := scrollStep maxDepth d
    let r := scrollRun s.1 ds
    (r.1, s.2.toList ++ r.2)

/-! ## debounce (lines 34-44).  Each invocation clears any pending timer and
schedules the action `wait` ms later with the latest arguments.  The event loop
is modelled explicitly: the call list is processed in chronological order, and a
pending timer fires when its scheduled time arrives before the next call. -/

/-- Simulate a debounced callable over a chronological call list, given the
pending scheduled run (fire time, arguments).  A call arriving strictly before
the pending fire time cancels it (`clearTimeout`) and reschedules
(`setTimeout`); otherwise the pending run fires first.  Returns the runs of the
wrapped action as (time, arguments) pairs. -/
def debounceSim {α : Type} (wait : Nat) :
    List (Nat × α) → Option (Nat × α) → List (Nat × α)
  | [], none => []
  | [], some p => [p]
  | (t, a) :: rest, none => debounceSim wait rest (some (t + wait, a))
  | (t, a) :: rest, some (ft, pa) =>
    if ft ≤ t then (ft, pa) :: debounceSim wait rest (some (t + wait, a))
    else debounceSim wait rest (some (t + wait, a))

/-- Declarative description of the surviving runs: a call runs (at its time plus
`wait`, with its own arguments) exactly when it is the last call or the next
call arrives only after its wait has elapsed. -/
def trailingRuns {α : Type} (wait : Nat) : List (Nat × α) → List (Nat × α)
  | [] => []
  | [(t, a)] => [(t + wait, a)]
  | (t, a) :: (t', b) :: rest =>
    if t + wait ≤ t' then (t + wait, a) :: trailingRuns wait ((t', b) :: rest)
    else trailingRuns wait ((t', b) :: rest)

/-! ## localStorage model and `StorageManager` (lines 644-691) -/

/-- The browser store: an association list of string pairs plus an accessibility
flag (`false` models a store whose operations throw). -/
structure LocalStorage where
  entries : List (String × String)
  accessible : Bool
deriving Repr, DecidableEq

/-- `this.prefix = 'kurdish_city_'` from the `StorageManager` constructor. -/
def nsKey : String := "kurdish_city_"

/-- `localStorage.getItem`: the stored string for a key, or `none`. -/
def lsGetItem (st : LocalStorage) (k : String) : Option String :=
  (st.entries.find? (fun kv => kv.1 == k)).map (fun kv => kv.2)

/-- `localStorage.setItem`: overwrite the binding for a key. -/
def lsSetItem (st : LocalStorage) (k v : String) : LocalStorage :=
  { st with entries := (k, v) :: st.entries.filter (fun kv => !(kv.1 == k)) }

/-- JSON-serialisable values as handled by `JSON.stringify` / `JSON.parse`.
The serialiser pair itself is a platform API and is passed to the storage
operations abstractly, constrained only by the round-trip hypotheses. -/
inductive JsonValue where
  | null : JsonValue
  | bool : Bool → JsonValue
  | num : ℚ → JsonValue
  | str : String → JsonValue
  | arr : List JsonValue → JsonValue
  | obj : List (String × JsonValue) → JsonValue

/-- `StorageManager.set`: namespaced `setItem` of the serialised value,
returning `false` when the store throws. -/
def storageSet (stringify : JsonValue → String) (st : LocalStorage) (k : String)
    (v : JsonValue) : Bool × LocalStorage :=
  if st.accessible then (true, lsSetItem st (nsKey ++ k) (stringify v))
  else (false, st)

/-- `StorageManager.get`: namespaced `getItem`; `item ? JSON.parse(item) :
defaultValue` — a missing key (`null`, falsy) or an empty stored string (falsy)
yields the default, and a `JSON.parse` failure is caught and yields the
default. -/
def storageGet (parse : String → Option JsonValue) (st : LocalStorage) (k : String)
    (dflt : JsonValue) : JsonValue :=
  if st.accessible then
    match lsGetItem st (nsKey ++ k) with
    | none => dflt
    | some item => if item = "" then dflt else (parse item).getD dflt
  else dflt

/-- `StorageManager.clear`: remove exactly the keys carrying the namespace
prefix, returning `false` when the store throws. -/
def storageClear (st : LocalStorage) : Bool × LocalStorage :=
  if st.accessible then
    (true, { st with entries := st.entries.filter (fun kv => !(kv.1.startsWith nsKey)) })
  else (false, st)

/-! ## ThemeManager (lines 696-751) -/

/-- `JSON.stringify` restricted to escape-free strings — the only values the
theme controller stores: wrap in double quotes. -/
def jsonQuote (s : String) : String := "\"" ++ s ++ "\""

/-- `storage.set('theme', value)` specialised to the string-valued theme
preference, with `JSON.stringify` of an escape-free string as `jsonQuote`. -/
def storageSetStr (st : LocalStorage) (k v : String) : Bool × LocalStorage :=
  if st.accessible then (true, lsSetItem st (nsKey ++ k) (jsonQuote v))
  else (false, st)

/-- The theme controller state: `this.currentTheme`, the document-level
`data-theme` attribute, and the persistent store. -/
structure ThemeState where
  currentTheme : String
  dataTheme : String
  store : LocalStorage
deriving Repr, DecidableEq

/-- `applyTheme`: `document.documentElement.setAttribute('data-theme',
this.currentTheme)`. -/
def applyTheme (s : ThemeState) : ThemeState := { s with dataTheme := s.currentTheme }

/-- `toggleTheme` (lines 712-721): any current value other than exactly `"dark"`
flips to `"dark"`, `"dark"` flips to `"light"`; the new value is persisted and
re-applied to the document attribute. -/
def toggleTheme (s : ThemeState) : ThemeState :=
  let t := if s.currentTheme = "dark" then "light" else "dark"
  applyTheme
    { currentTheme := t
      dataTheme := s.dataTheme
      store := (storageSetStr s.store "theme" t).2 }

/-! ## Utility `randomBetween` (lines 49-51) and the simulated refresh
(`ServerStatusManager.fetchServerData`, lines 229-248).  Each `Math.random()`
call is modelled by an explicit rational draw in `[0,1)`. -/

/-- `randomBetween(min, max)`: `Math.floor(Math.random() * (max - min + 1)) + min`
with the `Math.random()` draw `r` made explicit. -/
def randomBetween (lo hi : Int) (r : ℚ) : Int :=
  Int.floor (r * ((hi : ℚ) - (lo : ℚ) + 1)) + lo

/-- One-decimal rounding as performed by `parseFloat(x.toFixed(1))`: round to
the nearest tenth, ties rounded up (all values involved here are positive, where
`toFixed` rounds ties away from zero). -/
def toFixed1 (x : ℚ) : ℚ := ((Int.floor (10 * x + 1 / 2) : ℚ)) / 10

/-- `fetchServerData`: `isOnline = Math.random() > 0.1`; when online the players
and ping are fresh `randomBetween` draws, otherwise 0; `maxPlayers` is fixed at
200; `uptime = parseFloat((99.5 + Math.random() * 0.4).toFixed(1))` in both
branches.  The four draws are the explicit arguments `rOnline rPlayers rPing
rUptime`. -/
def fetchServerData (rOnline rPlayers rPing rUptime : ℚ) : ServerStatus :=
  { status := if (0.1 : ℚ) < rOnline then "online" else "offline"
    playersOnline := if (0.1 : ℚ) < rOnline then randomBetween 80 200 rPlayers else 0
    maxPlayers := 200
    ping := if (0.1 : ℚ) < rOnline then randomBetween 25 80 rPing else 0
    uptime := toFixed1 (99.5 + rUptime * 0.4) }

/-! ## Display rendering (`ServerStatusManager.updateDisplay`, lines 250-276)
and the manual update entry point (`KurdishCityApp.updateServerData`, lines
959-962). -/

/-- JS template-string rendering of the uptime number, for the values produced
here (non-negative rationals with at most one decimal digit): integers print
without a decimal point, other values with exactly one digit after it. -/
def jsNumToString (q : ℚ) : String :=
  if q.den = 1 then toString q.num
  else toString ((10 * q).num / 10) ++ "." ++ toString ((10 * q).num % 10)

/-- The five strings `updateDisplay` computes from the shared record. -/
structure StatusDisplay where
  statusText : String
  statusClass : String
  playerCountText : String
  pingText : String
  uptimeText : String
deriving Repr, DecidableEq

/-- The pure rendering performed by `updateDisplay`: status glyph/class keyed on
`status === 'online'`, player count as `playersOnline/maxPlayers`, ping with an
`ms` suffix when online and `N/A` when offline, uptime with a `%` suffix. -/
def renderStatus (d : ServerStatus) : StatusDisplay :=
  { statusText := if d.status = "online" then "🟢 ئۆنلاین" else "🔴 ناکارا"
    statusClass := if d.status = "online" then "status-online" else "status-offline"
    playerCountText := toString d.playersOnline ++ "/" ++ toString d.maxPlayers
    pingText := if d.status = "online" then toString d.ping ++ "ms" else "N/A"
    uptimeText := jsNumToString d.uptime ++ "%" }

/-- The status badge element: `textContent` and `className`. -/
structure StatusEl where
  text : String
  cls : String
deriving Repr, DecidableEq

/-- The four display elements looked up in the `ServerStatusManager`
constructor; `none` models an absent element, `some` its current text. -/
structure StatusDom where
  status : Option StatusEl
  playerCount : Option String
  ping : Option String
  uptime : Option String
deriving Repr, DecidableEq

/-- `updateDisplay`: `if (!this.statusElements.status) return;` — when the
status badge element is absent nothing is written at all; otherwise it writes
the badge and each of the other elements that are present. -/
def updateDisplay (data : ServerStatus) (dom : StatusDom) : StatusDom :=
  match dom.status with
  | none => dom
  | some _ =>
    let r := renderStatus data
    { status := some { text := r.statusText, cls := r.statusClass }
      playerCount := dom.playerCount.map (fun _ => r.playerCountText)
      ping := dom.ping.map (fun _ => r.pingText)
      uptime := dom.uptime.map (fun _ => r.uptimeText) }

/-- A partial `ServerStatus`, as accepted by the manual update entry point. -/
structure StatusPatch where
  status : Option String := none
  playersOnline : Option Int := none
  maxPlayers : Option Int := none
  ping : Option Int := none
  uptime : Option ℚ := none
deriving Repr, DecidableEq

/-- `Object.assign(serverData, newData)`: fields present in the partial record
overwrite, absent fields keep their previous values. -/
def mergeStatus (s : ServerStatus) (p : StatusPatch) : ServerStatus :=
  { status := p.status.getD s.status
    playersOnline := p.playersOnline.getD s.playersOnline
    maxPlayers := p.maxPlayers.getD s.maxPlayers
    ping := p.ping.getD s.ping
    uptime := p.uptime.getD s.uptime }

/-- `KurdishCityApp.updateServerData` (lines 959-962): merge the supplied
partial record into the shared `serverData`, then re-render the display. -/
def updateServerData (s : ServerStatus) (p : StatusPatch) (dom : StatusDom) :
    ServerStatus × StatusDom :=
  let s' := mergeStatus s p
  (s', updateDisplay s' dom)

/-! ## Konami detector (`EasterEggManager.setupKonamiCode`, lines 467-480).
The keydown listener pushes `e.code` onto `konamiCode`, shifts the oldest entry
when the buffer exceeds the target length, and on an exact match activates the
effect and empties the buffer. -/

/-- `this.targetCode` from the `EasterEggManager` constructor. -/
def targetCode : List String :=
  ["ArrowUp", "ArrowUp", "ArrowDown", "ArrowDown",
   "ArrowLeft", "ArrowRight", "ArrowLeft", "ArrowRight",
   "KeyB", "KeyA"]

/-- One keydown: push the code, shift when the buffer exceeds the target length,
then fire and clear on an exact match.  Returns (new buffer, fired?). -/
def konamiStep (buf : List String) (c : String) : List String × Bool :=
  let b1 := buf ++ [c]
  let b2 := if targetCode.length < b1.length then b1.tail else b1
  if b2 = targetCode then ([], true) else (b2, false)

/-- Process a keydown sequence from the initial empty buffer, counting effect
activations. -/
def konamiRun (h : List String) : List String × Nat :=
  h.foldl (fun s c =>
    let r := konamiStep s.1 c
    (r.1, s.2 + (if r.2 then 1 else 0))) ([], 0)

/-- The buffer contents after processing the keydown history `h`. -/
def konamiBuf (h : List String) : List String := (konamiRun h).1

/-- Does the keydown `c`, arriving after history `h`, fire the effect? -/
def konamiFires (h : List String) (c : String) : Bool :=
  (konamiStep (konamiBuf h) c).2

/-- The last `n` elements of a list. -/
def lastN {α : Type} (n : Nat) (l : List α) : List α := l.drop (l.length - n)

/-- A `randomBetween` draw lands in `[lo, hi]` whenever the random draw is in
`[0,1)` and `lo ≤ hi`. -/
theorem randomBetween_bounds (lo hi : Int) (r : ℚ) (hr : 0 ≤ r) (hr1 : r < 1)
    (hlohi : lo ≤ hi) :
    lo ≤ randomBetween lo hi r ∧ randomBetween lo hi r ≤ hi := by
  unfold randomBetween
  have hc : ((lo : ℚ)) ≤ (hi : ℚ) := by exact_mod_cast hlohi
  have hn : (0 : ℚ) < (hi : ℚ) - (lo : ℚ) + 1 := by linarith
  constructor
  · have h0 : (0 : ℚ) ≤ r * ((hi : ℚ) - (lo : ℚ) + 1) := mul_nonneg hr (le_of_lt hn)
    have hf : 0 ≤ Int.floor (r * ((hi : ℚ) - (lo : ℚ) + 1)) := Int.floor_nonneg.mpr h0
    omega
  · have hlt : r * ((hi : ℚ) - (lo : ℚ) + 1) < (hi : ℚ) - (lo : ℚ) + 1 := by
      have := mul_lt_mul_of_pos_right hr1 hn
      simpa using this
    have hf : Int.floor (r * ((hi : ℚ) - (lo : ℚ) + 1)) < hi - lo + 1 := by
      rw [Int.floor_lt]
      push_cast
      exact hlt
    omega

/-- Uniformity of `randomBetween`: the draw produces the integer `k` exactly when
the random value lies in the half-open window of width `1 / (hi - lo + 1)`
associated to `k`; all windows have the same width, so a uniform draw yields a
uniform integer. -/
theorem randomBetween_eq_iff (lo hi k : Int) (r : ℚ) (hk : lo ≤ k) (hk' : k ≤ hi) :
    randomBetween lo hi r = k ↔
      ((k : ℚ) - (lo : ℚ)) / ((hi : ℚ) - (lo : ℚ) + 1) ≤ r ∧
        r < ((k : ℚ) - (lo : ℚ) + 1) / ((hi : ℚ) - (lo : ℚ) + 1) := by
  have hc : ((lo : ℚ)) ≤ (hi : ℚ) := by exact_mod_cast le_trans hk hk'
  have hn : (0 : ℚ) < (hi : ℚ) - (lo : ℚ) + 1 := by linarith
  have h1 : randomBetween lo hi r = k ↔
      Int.floor (r * ((hi : ℚ) - (lo : ℚ) + 1)) = k - lo := by
    unfold randomBetween; omega
  rw [h1, Int.floor_eq_iff]
  push_cast
  constructor
  · rintro ⟨ha, hb⟩
    constructor
    · rw [div_le_iff₀ hn]; linarith
    · rw [lt_div_iff₀ hn]; linarith
  · rintro ⟨ha, hb⟩
    rw [div_le_iff₀ hn] at ha
    rw [lt_div_iff₀ hn] at hb
    constructor <;> linarith

/-- Bounds for the simulated uptime: for a draw `u ∈ [0,1)` the rounded value
`toFixed1 (99.5 + u * 0.4)` lies in `[99.5, 99.9]`. -/
theorem toFixed1_uptime_bounds (u : ℚ) (hu : 0 ≤ u) (hu1 : u < 1) :
    (99.5 : ℚ) ≤ toFixed1 (99.5 + u * 0.4) ∧ toFixed1 (99.5 + u * 0.4) ≤ 99.9 := by
  unfold toFixed1
  have hf1 : (995 : Int) ≤ Int.floor (10 * ((99.5 : ℚ) + u * 0.4) + 1 / 2) := by
    rw [Int.le_floor]
    push_cast
    linarith
  have hf2 : Int.floor (10 * ((99.5 : ℚ) + u * 0.4) + 1 / 2) < 1000 := by
    rw [Int.floor_lt]
    push_cast
    linarith
  have hq1 : (995 : ℚ) ≤ ((Int.floor (10 * ((99.5 : ℚ) + u * 0.4) + 1 / 2) : Int) : ℚ) := by
    exact_mod_cast hf1
  have hq2 : ((Int.floor (10 * ((99.5 : ℚ) + u * 0.4) + 1 / 2) : Int) : ℚ) ≤ 999 := by
    have : Int.floor (10 * ((99.5 : ℚ) + u * 0.4) + 1 / 2) ≤ 999 := by omega
    exact_mod_cast this
  constructor <;> [linarith; linarith]

/-- C1: in one refresh tick with draws `r1 r2 r3 r4 ∈ [0,1)` the produced
`ServerStatus` is online exactly when the online draw exceeds 0.1; when online
`playersOnline` is a uniform integer in `[80,200]` and `ping` a uniform integer
in `[25,80]` (each value `k` is hit exactly on an equal-width window of the
draw); when offline both are 0; `maxPlayers = 200` in both branches; and the
uptime equals `99.5 + 0.4·r4` rounded to one decimal, by a formula independent
of the online draw, always landing in `[99.5, 99.9]`. -/
theorem fetchServerData_spec (r1 r2 r3 r4 : ℚ)
    (h2 : 0 ≤ r2) (h2' : r2 < 1) (h3 : 0 ≤ r3) (h3' : r3 < 1)
    (h4 : 0 ≤ r4) (h4' : r4 < 1) :
    ((fetchServerData r1 r2 r3 r4).status = "online" ↔ (0.1 : ℚ) < r1) ∧
    ((fetchServerData r1 r2 r3 r4).status = "offline" ↔ ¬ (0.1 : ℚ) < r1) ∧
    ((0.1 : ℚ) < r1 →
      (fetchServerData r1 r2 r3 r4).playersOnline = randomBetween 80 200 r2 ∧
      80 ≤ (fetchServerData r1 r2 r3 r4).playersOnline ∧
      (fetchServerData r1 r2 r3 r4).playersOnline ≤ 200 ∧
      (∀ k : Int, 80 ≤ k → k ≤ 200 →
        ((fetchServerData r1 r2 r3 r4).playersOnline = k ↔
          ((k : ℚ) - 80) / 121 ≤ r2 ∧ r2 < ((k : ℚ) - 79) / 121)) ∧
      (fetchServerData r1 r2 r3 r4).ping = randomBetween 25 80 r3 ∧
      25 ≤ (fetchServerData r1 r2 r3 r4).ping ∧
      (fetchServerData r1 r2 r3 r4).ping ≤ 80 ∧
      (∀ k : Int, 25 ≤ k → k ≤ 80 →
        ((fetchServerData r1 r2 r3 r4).ping = k ↔
          ((k : ℚ) - 25) / 56 ≤ r3 ∧ r3 < ((k : ℚ) - 24) / 56))) ∧
    (¬ (0.1 : ℚ) < r1 →
      (fetchServerData r1 r2 r3 r4).playersOnline = 0 ∧
      (fetchServerData r1 r2 r3 r4).ping = 0) ∧
    (fetchServerData r1 r2 r3 r4).maxPlayers = 200 ∧
    (fetchServerData r1 r2 r3 r4).uptime = toFixed1 (99.5 + r4 * 0.4) ∧
    (99.5 : ℚ) ≤ (fetchServerData r1 r2 r3 r4).uptime ∧
    (fetchServerData r1 r2 r3 r4).uptime ≤ 99.9 := by
  have hup := toFixed1_uptime_bounds r4 h4 h4'
  by_cases h : (0.1 : ℚ) < r1
  · refine ⟨by simp [fetchServerData, h], by simp [fetchServerData, h], ?_, ?_, ?_, ?_, ?_, ?_⟩
    · intro _
      have hp := randomBetween_bounds 80 200 r2 h2 h2' (by norm_num)
      have hg := randomBetween_bounds 25 80 r3 h3 h3' (by norm_num)
      refine ⟨by simp [fetchServerData, h], ?_, ?_, ?_, by simp [fetchServerData, h], ?_, ?_, ?_⟩
      · simpa [fetchServerData, h] using hp.1
      · simpa [fetchServerData, h] using hp.2
      · intro k hk hk'
        have hiff := randomBetween_eq_iff 80 200 k r2 hk hk'
        have e1 : ((200 : Int) : ℚ) - ((80 : Int) : ℚ) + 1 = 121 := by norm_num
        have e2 : (k : ℚ) - ((80 : Int) : ℚ) = (k : ℚ) - 80 := by norm_num
        have e3 : (k : ℚ) - 80 + 1 = (k : ℚ) - 79 := by ring
        rw [e1, e2, e3] at hiff
        simpa [fetchServerData, h] using hiff
      · simpa [fetchServerData, h] using hg.1
      · simpa [fetchServerData, h] using hg.2
      · intro k hk hk'
        have hiff := randomBetween_eq_iff 25 80 k r3 hk hk'
        have e1 : ((80 : Int) : ℚ) - ((25 : Int) : ℚ) + 1 = 56 := by norm_num
        have e2 : (k : ℚ) - ((25 : Int) : ℚ) = (k : ℚ) - 25 := by norm_num
        have e3 : (k : ℚ) - 25 + 1 = (k : ℚ) - 24 := by ring
        rw [e1, e2, e3] at hiff
        simpa [fetchServerData, h] using hiff
    · intro hco; exact absurd h hco
    · simp [fetchServerData, h]
    · simp [fetchServerData, h]
    · simpa [fetchServerData, h] using hup.1
    · simpa [fetchServerData, h] using hup.2
  · refine ⟨by simp [fetchServerData, h], by simp [fetchServerData, h], ?_, ?_, ?_, ?_, ?_, ?_⟩
    · intro hco; exact absurd hco h
    · intro _
      constructor <;> simp [fetchServerData, h]
    · simp [fetchServerData, h]
    · simp [fetchServerData, h]
    · simpa [fetchServerData, h] using hup.1
    · simpa [fetchServerData, h] using hup.2

/-- Witness for C1 at the concrete draws `(0.5, 0, 0, 0)`: the tick is online
and the players draw yields the lowest value 80. -/
theorem fetchServerData_spec_witness :
    (fetchServerData 0.5 0 0 0).status = "online" ∧
    (80 : Int) ≤ (fetchServerData 0.5 0 0 0).playersOnline := by
  have h := fetchServerData_spec 0.5 0 0 0 (by norm_num) (by norm_num)
    (by norm_num) (by norm_num) (by norm_num) (by norm_num)
  exact ⟨h.1.mpr (by norm_num), ((h.2.2.1 (by norm_num)).2.1)⟩

/-- Helper for the scroll-milestone analysis: every logged milestone strictly
exceeds the running maximum at the start of the run and is divisible by 25, and
the log list is strictly increasing. -/
theorem scrollRun_logs (ds : List Nat) : ∀ m : Nat,
    (∀ x ∈ (scrollRun m ds).2, m < x ∧ x % 25 = 0) ∧
    List.Chain' (fun a b => a < b) (scrollRun m ds).2 := by
  induction ds with
  | nil => intro m; simp [scrollRun]
  | cons d ds ih =>
    intro m
    by_cases hmd : m < d
    · by_cases h25 : d % 25 = 0
      · have hih := ih d
        have hlogs : (scrollRun m (d :: ds)).2 = d :: (scrollRun d ds).2 := by
          simp [scrollRun, scrollStep, if_pos hmd, if_pos h25]
        refine ⟨?_, ?_⟩
        · intro x hx
          rw [hlogs] at hx
          rcases List.mem_cons.mp hx with rfl | hx
          · exact ⟨hmd, h25⟩
          · exact ⟨lt_trans hmd (hih.1 x hx).1, (hih.1 x hx).2⟩
        · rw [hlogs]
          refine List.chain'_cons'.mpr ⟨?_, hih.2⟩
          intro y hy
          exact (hih.1 y (List.mem_of_mem_head? hy)).1
      · have hih := ih d
        have hlogs : (scrollRun m (d :: ds)).2 = (scrollRun d ds).2 := by
          simp [scrollRun, scrollStep, if_pos hmd, if_neg h25]
        refine ⟨?_, by rw [hlogs]; exact hih.2⟩
        intro x hx
        rw [hlogs] at hx
        exact ⟨lt_trans hmd (hih.1 x hx).1, (hih.1 x hx).2⟩
    · have hih := ih m
      have hlogs : (scrollRun m (d :: ds)).2 = (scrollRun m ds).2 := by
        simp [scrollRun, scrollStep, if_neg hmd]
      rw [hlogs]
      exact hih

/-- C2 (counterexample): feeding rounded scroll depths 30, 55, 80, 100 to the
analytics scroll handler logs exactly one milestone event, the value 100 — not
the four events 25, 50, 75, 100 that the claim asserts.  The handler only logs
when the new maximum depth is itself divisible by 25. -/
theorem scroll_milestones_counterexample :
    (scrollRun 0 [30, 55, 80, 100]).2 = [100] ∧
    (scrollRun 0 [30, 55, 80, 100]).2 ≠ [25, 50, 75, 100] := by
  constructor <;> decide

/-- C2 (amended): with max depths 30, 55, 80, 100 exactly one milestone event is
logged (the value 100), because a milestone is logged only when the strictly
increased maximum depth is an exact multiple of 25; depths landing exactly on
25, 50, 75, 100 log all four events; and in every run each logged milestone
strictly exceeds all earlier ones, so no milestone value is ever logged twice. -/
theorem scroll_milestones_amended :
    (scrollRun 0 [30, 55, 80, 100]).2 = [100] ∧
    (scrollRun 0 [25, 50, 75, 100]).2 = [25, 50, 75, 100] ∧
    (∀ m ds, ∀ x ∈ (scrollRun m ds).2, m < x ∧ x % 25 = 0) ∧
    (∀ m ds, List.Chain' (fun a b => a < b) (scrollRun m ds).2) ∧
    (∀ m ds, ((scrollRun m ds).2).Nodup) := by
  refine ⟨by decide, by decide, ?_, ?_, ?_⟩
  · intro m ds; exact (scrollRun_logs ds m).1
  · intro m ds; exact (scrollRun_logs ds m).2
  · intro m ds
    have h := (scrollRun_logs ds m).2
    have hp : List.Pairwise (fun a b => a < b) (scrollRun m ds).2 :=
      List.chain'_iff_pairwise.mp h
    exact hp.imp (fun hab => Nat.ne_of_lt hab)

theorem targetCode_length : targetCode.length = 10 := rfl

theorem lastN_append {α : Type} (k s : List α) : lastN s.length (k ++ s) = s := by
  unfold lastN
  rw [List.length_append, Nat.add_sub_cancel, List.drop_left]

theorem lastN_all {α : Type} (n : Nat) (l : List α) (h : l.length ≤ n) :
    lastN n l = l := by
  unfold lastN
  rw [Nat.sub_eq_zero_of_le h, List.drop_zero]

theorem konamiRun_append_singleton (h : List String) (c : String) :
    konamiRun (h ++ [c]) =
      ((konamiStep (konamiBuf h) c).1,
        (konamiRun h).2 + (if (konamiStep (konamiBuf h) c).2 then 1 else 0)) := by
  unfold konamiRun konamiBuf
  rw [List.foldl_append]
  rfl

theorem konamiBuf_append_singleton (h : List String) (c : String) :
    konamiBuf (h ++ [c]) = (konamiStep (konamiBuf h) c).1 := by
  unfold konamiBuf
  rw [konamiRun_append_singleton]
  rfl

theorem konamiCount_append_singleton (h : List String) (c : String) :
    (konamiRun (h ++ [c])).2 = (konamiRun h).2 + (if konamiFires h c then 1 else 0) := by
  rw [konamiRun_append_singleton]
  rfl

/-- A step on a buffer of at most 9 codes does not shift. -/
theorem konamiStep_short (buf : List String) (c : String) (h9 : buf.length ≤ 9) :
    konamiStep buf c =
      if buf ++ [c] = targetCode then ([], true) else (buf ++ [c], false) := by
  have hnotrim : ¬ (targetCode.length < (buf ++ [c]).length) := by
    simp only [targetCode_length, List.length_append, List.length_singleton]
    omega
  simp only [konamiStep]
  rw [if_neg hnotrim]

/-- A step on a full 10-code buffer shifts out its oldest code. -/
theorem konamiStep_full (d : String) (tl : List String) (c : String)
    (h9 : tl.length = 9) :
    konamiStep (d :: tl) c =
      if tl ++ [c] = targetCode then ([], true) else (tl ++ [c], false) := by
  have htrim : targetCode.length < ((d :: tl) ++ [c]).length := by
    simp [targetCode_length, h9]
  simp only [konamiStep]
  rw [if_pos htrim, List.cons_append, List.tail_cons]

/-- Whenever the effect fires, the step leaves an empty buffer behind. -/
theorem konamiStep_clear (buf : List String) (c : String) :
    (konamiStep buf c).2 = true → (konamiStep buf c).1 = [] := by
  simp only [konamiStep]
  split <;> split <;> simp

/-- The target sequence has no self-overlap: no proper suffix of it is also a
proper head of it.  This is what rules out a late fire being stolen by an
earlier fire's buffer clear. -/
theorem targetCode_border_free :
    ∀ d : Fin 10, 0 < d.val →
      targetCode.drop d.val ≠ targetCode.take (10 - d.val) := by
  decide

/-- Invariant of the Konami buffer after any history `h`: it has at most 10
codes, it is a suffix of `h`, and when it is shorter than both 10 and `h` the
history decomposes as some prefix, then a full occurrence of the target (the
fire that cleared the buffer), then exactly the buffer contents. -/
theorem konami_inv (h : List String) :
    (konamiBuf h).length ≤ 10 ∧
    (∃ k, h = k ++ konamiBuf h) ∧
    ((konamiBuf h).length < 10 → (konamiBuf h).length < h.length →
      ∃ p, h = p ++ (targetCode ++ konamiBuf h)) := by
  induction h using List.reverseRecOn with
  | nil =>
    refine ⟨?_, ⟨[], ?_⟩, ?_⟩ <;> simp [konamiBuf, konamiRun]
  | append_singleton h c ih =>
    obtain ⟨hlen, ⟨k, hk⟩, hclear⟩ := ih
    rcases Nat.lt_or_ge (konamiBuf h).length 10 with h9 | h10
    · have hstep := konamiStep_short (konamiBuf h) c (by omega)
      by_cases hfire : konamiBuf h ++ [c] = targetCode
      · have hbe : konamiBuf (h ++ [c]) = [] := by
          rw [konamiBuf_append_singleton, hstep, if_pos hfire]
        refine ⟨by simp [hbe], ⟨h ++ [c], by simp [hbe]⟩, ?_⟩
        intro _ _
        refine ⟨k, ?_⟩
        rw [hbe]
        conv_lhs => rw [hk]
        simp [List.append_assoc, hfire]
      · have hbe : konamiBuf (h ++ [c]) = konamiBuf h ++ [c] := by
          rw [konamiBuf_append_singleton, hstep, if_neg hfire]
        refine ⟨?_, ⟨k, ?_⟩, ?_⟩
        · rw [hbe]; simp; omega
        · rw [hbe, ← List.append_assoc, ← hk]
        · intro hl hl2
          rw [hbe] at hl hl2
          simp only [List.length_append, List.length_singleton] at hl hl2
          obtain ⟨p, hp⟩ := hclear (by omega) (by omega)
          refine ⟨p, ?_⟩
          rw [hbe]
          conv_lhs => rw [hp]
          simp [List.append_assoc]
    · have h10e : (konamiBuf h).length = 10 := le_antisymm hlen h10
      obtain ⟨d, tl, hdt⟩ : ∃ d tl, konamiBuf h = d :: tl := by
        cases hcb : konamiBuf h with
        | nil => rw [hcb] at h10e; simp at h10e
        | cons d tl => exact ⟨d, tl, rfl⟩
      have htl : tl.length = 9 := by
        have h' := h10e
        rw [hdt] at h'
        simpa using h'
      have hstep : konamiStep (konamiBuf h) c =
          if tl ++ [c] = targetCode then ([], true) else (tl ++ [c], false) := by
        rw [hdt]
        exact konamiStep_full d tl c htl
      by_cases hfire : tl ++ [c] = targetCode
      · have hbe : konamiBuf (h ++ [c]) = [] := by
          rw [konamiBuf_append_singleton, hstep, if_pos hfire]
        refine ⟨by simp [hbe], ⟨h ++ [c], by simp [hbe]⟩, ?_⟩
        intro _ _
        refine ⟨k ++ [d], ?_⟩
        rw [hbe]
        conv_lhs => rw [hk, hdt]
        simp [List.append_assoc, hfire]
      · have hbe : konamiBuf (h ++ [c]) = tl ++ [c] := by
          rw [konamiBuf_append_singleton, hstep, if_neg hfire]
        refine ⟨?_, ⟨k ++ [d], ?_⟩, ?_⟩
        · rw [hbe]; simp [htl]
        · rw [hbe]
          conv_lhs => rw [hk, hdt]
          simp [List.append_assoc]
        · intro hl _
          rw [hbe] at hl
          simp [htl] at hl

/-- The central characterisation: a keydown fires the effect exactly when the
last 10 keydowns of the whole history (the new one included) spell the target
sequence. -/
theorem konamiFires_iff (h : List String) (c : String) :
    konamiFires h c = true ↔ lastN 10 (h ++ [c]) = targetCode := by
  obtain ⟨hlen, ⟨k, hk⟩, hclear⟩ := konami_inv h
  unfold konamiFires
  rcases Nat.lt_or_ge (konamiBuf h).length 9 with h8 | h9
  · -- buffer of at most 8 codes: no fire, and the last 10 cannot be the target
    have hstep := konamiStep_short (konamiBuf h) c (by omega)
    have hfire : ¬ (konamiBuf h ++ [c] = targetCode) := by
      intro hcon
      have hL := congrArg List.length hcon
      simp [targetCode_length] at hL
      omega
    have hnotlast : ¬ lastN 10 (h ++ [c]) = targetCode := by
      intro hlast
      rcases Nat.lt_or_ge h.length 9 with hsh | hlg
      · have heq : lastN 10 (h ++ [c]) = h ++ [c] :=
          lastN_all _ _ (by simp; omega)
        rw [heq] at hlast
        have hL := congrArg List.length hlast
        simp [targetCode_length] at hL
        omega
      · obtain ⟨p, hp⟩ := hclear (by omega) (by omega)
        have hsplit : h ++ [c] = p ++ (targetCode ++ (konamiBuf h ++ [c])) := by
          conv_lhs => rw [hp]
          simp [List.append_assoc]
        have hdrop : lastN 10 (h ++ [c]) =
            targetCode.drop ((konamiBuf h).length + 1) ++ (konamiBuf h ++ [c]) := by
          rw [hsplit]
          unfold lastN
          have hL1 : (p ++ (targetCode ++ (konamiBuf h ++ [c]))).length - 10 =
              p.length + ((konamiBuf h).length + 1) := by
            simp [targetCode_length]
            omega
          rw [hL1, List.drop_append]
          rw [List.drop_append_of_le_length (by rw [targetCode_length]; omega)]
        rw [hdrop] at hlast
        have htake := congrArg (List.take (10 - ((konamiBuf h).length + 1))) hlast
        have hLdrop : (targetCode.drop ((konamiBuf h).length + 1)).length =
            10 - ((konamiBuf h).length + 1) := by
          simp [targetCode_length]
        rw [List.take_left' hLdrop] at htake
        exact targetCode_border_free ⟨(konamiBuf h).length + 1, by omega⟩
          (Nat.succ_pos _) htake
    rw [hstep, if_neg hfire]
    simp [hnotlast]
  · rcases Nat.lt_or_ge (konamiBuf h).length 10 with h9' | h10
    · -- buffer of exactly 9 codes: the step appends and compares the last 10
      have h9e : (konamiBuf h).length = 9 := by omega
      have hstep := konamiStep_short (konamiBuf h) c (by omega)
      have hlast : lastN 10 (h ++ [c]) = konamiBuf h ++ [c] := by
        have hsplit : h ++ [c] = k ++ (konamiBuf h ++ [c]) := by
          conv_lhs => rw [hk]
          rw [List.append_assoc]
        rw [hsplit]
        have hlen10 : (konamiBuf h ++ [c]).length = 10 := by simp [h9e]
        rw [← hlen10, lastN_append]
      rw [hstep, hlast]
      by_cases hfire : konamiBuf h ++ [c] = targetCode
      · rw [if_pos hfire]
        simp [hfire]
      · rw [if_neg hfire]
        simp [hfire]
    · -- full buffer: the step shifts, leaving exactly the last 10 keydowns
      have h10e : (konamiBuf h).length = 10 := le_antisymm hlen h10
      obtain ⟨d, tl, hdt⟩ : ∃ d tl, konamiBuf h = d :: tl := by
        cases hcb : konamiBuf h with
        | nil => rw [hcb] at h10e; simp at h10e
        | cons d tl => exact ⟨d, tl, rfl⟩
      have htl : tl.length = 9 := by
        have h' := h10e
        rw [hdt] at h'
        simpa using h'
      have hstep : konamiStep (konamiBuf h) c =
          if tl ++ [c] = targetCode then ([], true) else (tl ++ [c], false) := by
        rw [hdt]
        exact konamiStep_full d tl c htl
      have hlast : lastN 10 (h ++ [c]) = tl ++ [c] := by
        have hsplit : h ++ [c] = (k ++ [d]) ++ (tl ++ [c]) := by
          conv_lhs => rw [hk, hdt]
          simp [List.append_assoc]
        rw [hsplit]
        have hlen10 : (tl ++ [c]).length = 10 := by simp [htl]
        rw [← hlen10, lastN_append]
      rw [hstep, hlast]
      by_cases hfire : tl ++ [c] = targetCode
      · rw [if_pos hfire]
        simp [hfire]
      · rw [if_neg hfire]
        simp [hfire]

/-- No fire can occur within the first 9 keydowns. -/
theorem konamiRun_count_short (h : List String) :
    h.length ≤ 9 → (konamiRun h).2 = 0 := by
  induction h using List.reverseRecOn with
  | nil => intro _; rfl
  | append_singleton h c ih =>
    intro hlen
    rw [konamiCount_append_singleton]
    have hh : h.length ≤ 8 := by simp at hlen; omega
    rw [ih (by omega)]
    cases hb : konamiFires h c with
    | false => simp
    | true =>
      exfalso
      have hlast := (konamiFires_iff h c).mp hb
      have hshort : lastN 10 (h ++ [c]) = h ++ [c] :=
        lastN_all _ _ (by simp; omega)
      rw [hshort] at hlast
      have hL := congrArg List.length hlast
      simp [targetCode_length] at hL
      omega

/-- Any 10-keydown sequence other than the target produces no fire at all; in
particular a one-code substitution anywhere in the target never triggers. -/
theorem konamiRun_count_ten (l : List String) (hlen : l.length = 10)
    (hne : l ≠ targetCode) : (konamiRun l).2 = 0 := by
  induction l using List.reverseRecOn with
  | nil => simp at hlen
  | append_singleton h c _ =>
    rw [konamiCount_append_singleton]
    have hh : h.length = 9 := by simp at hlen; omega
    rw [konamiRun_count_short h (by omega)]
    cases hb : konamiFires h c with
    | false => simp
    | true =>
      exfalso
      have hlast := (konamiFires_iff h c).mp hb
      have hshort : lastN 10 (h ++ [c]) = h ++ [c] :=
        lastN_all _ _ (by simp; omega)
      rw [hshort] at hlast
      exact hne hlast

/-- C3: the Konami buffer always holds at most the last 10 key codes; a
keypress fires the cosmetic effect exactly when the last 10 codes of the whole
history equal the target sequence in order (so interspersed unrelated codes do
not prevent a trigger); a fire clears the buffer; feeding exactly the target
triggers exactly once; and any other 10-code sequence — in particular the
target with one code substituted — never triggers. -/
theorem konami_detector_correct :
    (∀ h, (konamiBuf h).length ≤ 10) ∧
    (∀ h c, konamiFires h c = true ↔ lastN 10 (h ++ [c]) = targetCode) ∧
    (∀ h c, konamiFires h c = true → konamiBuf (h ++ [c]) = []) ∧
    (konamiRun targetCode).2 = 1 ∧
    (∀ l : List String, l.length = 10 → l ≠ targetCode → (konamiRun l).2 = 0) := by
  refine ⟨fun h => (konami_inv h).1, konamiFires_iff, ?_, ?_, konamiRun_count_ten⟩
  · intro h c hf
    rw [konamiBuf_append_singleton]
    exact konamiStep_clear _ _ hf
  · decide

/-- Witness for C3: substituting the final `KeyA` of the target by `KeyB` gives
a 10-code sequence that never triggers the effect. -/
theorem konami_detector_correct_witness :
    (konamiRun ["ArrowUp", "ArrowUp", "ArrowDown", "ArrowDown", "ArrowLeft",
      "ArrowRight", "ArrowLeft", "ArrowRight", "KeyB", "KeyB"]).2 = 0 :=
  konami_detector_correct.2.2.2.2 _ (by decide) (by decide)

/-- C5: invoking `hide()` at elapsed time `e` schedules the fade at
`max e 1000` (so the 1000ms floor is never shortened, and `e ≥ 1000` adds no
extra delay), and the removal from layout plus the `loaded` flag follow a fixed
500ms after the fade begins. -/
theorem loading_hide_floor (e : Int) (he : 0 ≤ e) :
    fadeStartTime e = max e 1000 ∧
    1000 ≤ fadeStartTime e ∧
    (1000 ≤ e → fadeStartTime e = e) ∧
    hiddenTime e = fadeStartTime e + 500 := by
  unfold hiddenTime fadeStartTime remainingTime minLoadTime
  omega

/-- Witness for C5 at `e = 200`: the fade begins at 1000ms from construction,
i.e. not before 800 further milliseconds have elapsed. -/
theorem loading_hide_floor_witness : fadeStartTime 200 = 1000 := by
  have h := (loading_hide_floor 200 (by norm_num)).1
  simpa using h

/-- A pending scheduled run behaves exactly like a fresh call at the time it
was scheduled from: induction workhorse for the debounce characterisation. -/
theorem debounceSim_pending {α : Type} (wait : Nat) (calls : List (Nat × α)) :
    ∀ (t : Nat) (a : α),
      debounceSim wait calls (some (t + wait, a)) = trailingRuns wait ((t, a) :: calls) := by
  induction calls with
  | nil => intro t a; rfl
  | cons p rest ih =>
    intro t a
    obtain ⟨t', b⟩ := p
    by_cases hc : t + wait ≤ t'
    · simp [debounceSim, trailingRuns, if_pos hc, ih]
    · simp [debounceSim, trailingRuns, if_neg hc, ih]

/-- C4: a debounced wrapper with wait 10 invoked at times 0, 5 and 8 runs the
wrapped action exactly once, at time 18, with the arguments of the `t = 8`
invocation; and in general every invocation arriving before the pending wait
elapses cancels and reschedules the pending run, so exactly the calls whose
wait window reaches the next call (or the end) survive, each with its own
arguments. -/
theorem debounce_spec {α : Type} :
    (∀ a b c : α, debounceSim 10 [(0, a), (5, b), (8, c)] none = [(18, c)]) ∧
    (∀ (wait : Nat) (calls : List (Nat × α)),
      debounceSim wait calls none = trailingRuns wait calls) := by
  constructor
  · intro a b c
    rfl
  · intro wait calls
    cases calls with
    | nil => rfl
    | cons p rest =>
      obtain ⟨t, a⟩ := p
      show debounceSim wait rest (some (t + wait, a)) = trailingRuns wait ((t, a) :: rest)
      exact debounceSim_pending wait rest t a

/-- C6: for the offline record the ping slot renders as `N/A` and the status
badge carries the offline glyph and class; for an online record with 150 of 200
players the player-count slot renders as `150/200` and the ping slot as the
ping value suffixed with `ms`. -/
theorem updateDisplay_render :
    (∀ (e : StatusEl) (s2 s3 s4 : String),
      (updateDisplay
          { status := "offline", playersOnline := 0, maxPlayers := 200, ping := 0,
            uptime := 99.7 }
          ⟨some e, some s2, some s3, some s4⟩).ping = some "N/A" ∧
      (updateDisplay
          { status := "offline", playersOnline := 0, maxPlayers := 200, ping := 0,
            uptime := 99.7 }
          ⟨some e, some s2, some s3, some s4⟩).status =
        some { text := "🔴 ناکارا", cls := "status-offline" }) ∧
    (∀ (e : StatusEl) (s2 s3 s4 : String) (p : Int) (u : ℚ),
      (updateDisplay
          { status := "online", playersOnline := 150, maxPlayers := 200, ping := p,
            uptime := u }
          ⟨some e, some s2, some s3, some s4⟩).playerCount = some "150/200" ∧
      (updateDisplay
          { status := "online", playersOnline := 150, maxPlayers := 200, ping := p,
            uptime := u }
          ⟨some e, some s2, some s3, some s4⟩).ping = some (toString p ++ "ms")) := by
  constructor
  · intro e s2 s3 s4
    exact ⟨rfl, rfl⟩
  · intro e s2 s3 s4 p u
    exact ⟨rfl, rfl⟩

/-- C7: when the store is accessible, `clear()` returns `true` and the
remaining entries are exactly those whose key does not start with the
`kurdish_city_` namespace prefix — every non-namespaced key keeps its value. -/
theorem storageClear_spec (st : LocalStorage) (hacc : st.accessible = true) :
    (storageClear st).1 = true ∧
    (∀ kv : String × String,
      kv ∈ (storageClear st).2.entries ↔
        (kv ∈ st.entries ∧ kv.1.startsWith nsKey = false)) := by
  constructor
  · simp [storageClear, hacc]
  · intro kv
    simp [storageClear, hacc, List.mem_filter]

/-- Witness for C7: clearing a store holding one namespaced and one unrelated
key leaves the unrelated binding untouched. -/
theorem storageClear_spec_witness :
    ("other_key", "v") ∈
      (storageClear ⟨[("kurdish_city_theme", "w"), ("other_key", "v")], true⟩).2.entries := by
  have h := (storageClear_spec ⟨[("kurdish_city_theme", "w"), ("other_key", "v")], true⟩
    rfl).2 ("other_key", "v")
  exact h.mpr ⟨by decide, by decide⟩

/-- C8: with an accessible store and a serialiser pair satisfying the platform
JSON round-trip contract on `v` (parse inverts stringify, and the serialised
form is a non-empty — hence truthy — string), `get k` after `set k v` returns
`v` itself, and `get` of a key with no stored binding returns the supplied
default. -/
theorem storage_roundtrip (stringify : JsonValue → String)
    (parse : String → Option JsonValue) (st : LocalStorage) (k : String)
    (v : JsonValue) (dflt : JsonValue)
    (hacc : st.accessible = true)
    (hinv : parse (stringify v) = some v)
    (hne : stringify v ≠ "") :
    storageGet parse (storageSet stringify st k v).2 k dflt = v ∧
    (∀ k' : String, lsGetItem st (nsKey ++ k') = none →
      storageGet parse st k' dflt = dflt) := by
  constructor
  · have hset : (storageSet stringify st k v).2 = lsSetItem st (nsKey ++ k) (stringify v) := by
      simp [storageSet, hacc]
    rw [hset]
    have hget : lsGetItem (lsSetItem st (nsKey ++ k) (stringify v)) (nsKey ++ k) =
        some (stringify v) := by
      simp [lsGetItem, lsSetItem, List.find?]
    have haccs : (lsSetItem st (nsKey ++ k) (stringify v)).accessible = true := by
      simp [lsSetItem, hacc]
    simp [storageGet, haccs, hget, hinv, hne]
  · intro k' hnone
    simp [storageGet, hacc, hnone]

/-- Witness for C8 with a concrete store and serialiser pair. -/
theorem storage_roundtrip_witness :
    storageGet (fun _ => some JsonValue.null)
      (storageSet (fun _ => "null") ⟨[], true⟩ "k" JsonValue.null).2 "k"
      (JsonValue.bool true) = JsonValue.null :=
  (storage_roundtrip (fun _ => "null") (fun _ => some JsonValue.null)
    ⟨[], true⟩ "k" JsonValue.null (JsonValue.bool true) rfl rfl (by decide)).1

/-- C9: after any `toggleTheme()` the current theme is exactly `dark` or
`light` and the document `data-theme` attribute equals it; any current value
other than `dark` — including an arbitrary corrupted stored string — toggles to
`dark`, and `dark` toggles to `light`. -/
theorem toggleTheme_invariant (s : ThemeState) :
    ((toggleTheme s).currentTheme = "dark" ∨ (toggleTheme s).currentTheme = "light") ∧
    (toggleTheme s).dataTheme = (toggleTheme s).currentTheme ∧
    (s.currentTheme ≠ "dark" → (toggleTheme s).currentTheme = "dark") ∧
    (s.currentTheme = "dark" → (toggleTheme s).currentTheme = "light") := by
  by_cases h : s.currentTheme = "dark"
  · refine ⟨Or.inr ?_, ?_, ?_, ?_⟩ <;> simp [toggleTheme, applyTheme, h]
  · refine ⟨Or.inl ?_, ?_, ?_, ?_⟩ <;> simp [toggleTheme, applyTheme, h]

/-- Witness for C9: a corrupted stored value toggles straight to `dark`. -/
theorem toggleTheme_invariant_witness :
    (toggleTheme ⟨"weird", "weird", ⟨[], true⟩⟩).currentTheme = "dark" :=
  (toggleTheme_invariant ⟨"weird", "weird", ⟨[], true⟩⟩).2.2.1 (by decide)

/-- C10: when the status badge element is absent, `updateDisplay` changes none
of the four display slots (whatever the other three elements hold), while the
manual entry point still field-merges the supplied partial record into the
shared status — fields absent from the patch keep their previous values and
fields present overwrite. -/
theorem updateServerData_frame (s : ServerStatus) (p : StatusPatch) (dom : StatusDom)
    (hmiss : dom.status = none) :
    (updateServerData s p dom).2 = dom ∧
    (updateServerData s p dom).1 = mergeStatus s p ∧
    (p.status = none → (updateServerData s p dom).1.status = s.status) ∧
    (∀ v, p.status = some v → (updateServerData s p dom).1.status = v) ∧
    (p.playersOnline = none →
      (updateServerData s p dom).1.playersOnline = s.playersOnline) ∧
    (p.maxPlayers = none → (updateServerData s p dom).1.maxPlayers = s.maxPlayers) ∧
    (p.ping = none → (updateServerData s p dom).1.ping = s.ping) ∧
    (p.uptime = none → (updateServerData s p dom).1.uptime = s.uptime) := by
  refine ⟨?_, rfl, ?_, ?_, ?_, ?_, ?_, ?_⟩
  · simp [updateServerData, updateDisplay, hmiss]
  · intro h0; simp [updateServerData, mergeStatus, h0]
  · intro v hv; simp [updateServerData, mergeStatus, hv]
  · intro h0; simp [updateServerData, mergeStatus, h0]
  · intro h0; simp [updateServerData, mergeStatus, h0]
  · intro h0; simp [updateServerData, mergeStatus, h0]
  · intro h0; simp [updateServerData, mergeStatus, h0]

/-- Witness for C10: a patch applied with the badge element absent re-renders
nothing yet updates the shared record. -/
theorem updateServerData_frame_witness :
    (updateServerData
        { status := "online", playersOnline := 1, maxPlayers := 200, ping := 2,
          uptime := 99.5 }
        { status := some "offline" }
        ⟨none, some "x", some "y", some "z"⟩).2 =
      ⟨none, some "x", some "y", some "z"⟩ :=
  (updateServerData_frame _ _ _ rfl).1

end KC
